import Mathlib

/-!
Verification of the 2D camera/transform core (src/camera.rs, src/transform.rs).

The embedding models the crate's double-precision arithmetic over `ℝ`.
`Point` and `Vec2` are the math crate's 2D value types (componentwise
arithmetic); `Mat4` models `glam::Mat4`, with `glam`'s `Mat4::inverse`
specified as the mathematical matrix inverse and `transform_point3`
transliterated from its affine action.  A separate rational model (`toF32`,
`world_to_screen_coords_f32`, `screen_to_world_coords_f32`) captures the
`as f32` narrowing performed inside the coordinate conversions, for the
claims whose truth depends on that narrowing; the real-valued definitions
carry the infinite-precision values of the same formulas.
-/

namespace Camera2d

/-- 2D point of the math crate: two double-precision coordinates, modelled as reals. -/
structure Point where
  x : ℝ
  y : ℝ

attribute [ext] Point

/-- 2D vector of the math crate (scale factors, deltas, sizes). -/
structure Vec2 where
  x : ℝ
  y : ℝ

attribute [ext] Vec2

/-- 3D point used by `glam::Vec3` in the coordinate conversions. -/
structure Vec3 where
  x : ℝ
  y : ℝ
  z : ℝ

attribute [ext] Vec3

/-- `glam::Mat4`, indexed row-major: `m i j` is row `i`, column `j`. -/
abbrev Mat4 := Matrix (Fin 4) (Fin 4) ℝ

/-- Row-major 4x4 matrix of a 2D affine map, exactly the shape produced by the
`Mat4::from_cols_array([...]).transpose()` calls in `to_matrix`: linear block
`[[a, b], [c, d]]`, translation `(tx, ty)`, third row/column identity. -/
def affine_mat {α : Type} [Field α] (a b c d tx ty : α) :
    Matrix (Fin 4) (Fin 4) α :=
  Matrix.of ![![a, b, 0, tx], ![c, d, 0, ty], ![0, 0, 1, 0], ![0, 0, 0, 1]]

/-- `glam`'s `Mat4::transform_point3`: multiply by the homogeneous matrix with
implicit `w = 1` and drop the `w` component. -/
noncomputable def transform_point3 (m : Mat4) (p : Vec3) : Vec3 :=
  ⟨m 0 0 * p.x + m 0 1 * p.y + m 0 2 * p.z + m 0 3,
   m 1 0 * p.x + m 1 1 * p.y + m 1 2 * p.z + m 1 3,
   m 2 0 * p.x + m 2 1 * p.y + m 2 2 * p.z + m 2 3⟩

/-- `src/transform.rs`: decomposed 2D affine transform. -/
structure Transform where
  dest : Point
  rotation : ℝ
  scale : Vec2
  offset : Point

/-- `Transform::to_matrix` (src/transform.rs lines 16-34): the pivot `offset`
is divided componentwise by `scale`, then the rotation/scale block and the
translation are assembled and embedded row-major in a 4x4 matrix. -/
noncomputable def Transform.to_matrix (t : Transform) : Mat4 :=
  let offset : Point := ⟨t.offset.x / t.scale.x, t.offset.y / t.scale.y⟩
  let sinr := Real.sin t.rotation
  let cosr := Real.cos t.rotation
  let m00 := cosr * t.scale.x
  let m01 := -sinr * t.scale.y
  let m10 := sinr * t.scale.x
  let m11 := cosr * t.scale.y
  let m03 := offset.x * (-m00) - offset.y * m01 + t.dest.x
  let m13 := offset.y * (-m11) - offset.x * m10 + t.dest.y
  Matrix.of ![![m00, m01, 0, m03], ![m10, m11, 0, m13],
    ![0, 0, 1, 0], ![0, 0, 0, 1]]

/-- `Transform::apply_matrix`: compose under a parent matrix. -/
noncomputable def Transform.apply_matrix (t : Transform) (parent_matrix : Mat4) : Mat4 :=
  parent_matrix * t.to_matrix

/-- `src/camera.rs`: the camera state. -/
structure Camera where
  offset : Point
  rotation : ℝ
  scale : Vec2
  position : Point
  screen_size : Vec2

/-- `Camera::to_matrix` (src/camera.rs lines 45-61): same construction as
`Transform::to_matrix` but with `position` as the pivot and `offset` used
directly (it is stored already scaled, see `set_offset`). -/
noncomputable def Camera.to_matrix (c : Camera) : Mat4 :=
  let sinr := Real.sin c.rotation
  let cosr := Real.cos c.rotation
  let m00 := cosr * c.scale.x
  let m01 := -sinr * c.scale.y
  let m10 := sinr * c.scale.x
  let m11 := cosr * c.scale.y
  let m03 := c.position.x * (-m00) - c.position.y * m01 + c.offset.x
  let m13 := c.position.y * (-m11) - c.position.x * m10 + c.offset.y
  Matrix.of ![![m00, m01, 0, m03], ![m10, m11, 0, m13],
    ![0, 0, 1, 0], ![0, 0, 0, 1]]

/-- `Camera::world_to_screen_coords`: lift the point to 3D with `z = 0`,
apply the camera matrix, drop `z`.  (The `f32` narrowing along this path is
modelled separately by `world_to_screen_coords_f32`.) -/
noncomputable def Camera.world_to_screen_coords (c : Camera) (point : Point) : Point :=
  let p := (⟨point.x, point.y, 0⟩ : Vec3)
  let screen_point := transform_point3 c.to_matrix p
  ⟨screen_point.x, screen_point.y⟩

/-- `Camera::screen_to_world_coords`: apply the inverse of the camera matrix
(`glam::Mat4::inverse`, specified as the mathematical inverse) to the point
lifted to 3D with `z = 0`.  (The `f32` narrowing along this path is modelled
separately by `screen_to_world_coords_f32`.) -/
noncomputable def Camera.screen_to_world_coords (c : Camera) (point : Point) : Point :=
  let inverse_matrix := c.to_matrix⁻¹
  let p := (⟨point.x, point.y, 0⟩ : Vec3)
  let world_point := transform_point3 inverse_matrix p
  ⟨world_point.x, world_point.y⟩

/-- `Camera::set_position`. -/
def Camera.set_position (c : Camera) (point : Point) : Camera :=
  { c with position := ⟨point.x, point.y⟩ }

/-- `Camera::set_offset`: the argument is multiplied componentwise by the
current scale before being stored. -/
noncomputable def Camera.set_offset (c : Camera) (point : Point) : Camera :=
  { c with offset := ⟨point.x * c.scale.x, point.y * c.scale.y⟩ }

/-- `Camera::move_by_world_coords`: `position -= delta`. -/
noncomputable def Camera.move_by_world_coords (c : Camera) (delta : Point) : Camera :=
  { c with position := ⟨c.position.x - delta.x, c.position.y - delta.y⟩ }

/-- `Camera::move_by_screen_coords`: `position -= delta / scale`. -/
noncomputable def Camera.move_by_screen_coords (c : Camera) (delta : Point) : Camera :=
  { c with position := ⟨c.position.x - delta.x / c.scale.x,
                        c.position.y - delta.y / c.scale.y⟩ }

/-- `Camera::get_zoom`. -/
def Camera.get_zoom (c : Camera) : Vec2 := c.scale

/-- `Camera::set_zoom`: replaces `scale`. -/
def Camera.set_zoom (c : Camera) (scale : Vec2) : Camera :=
  { c with scale := scale }

/-- `Camera::zoom`: multiplies `scale` componentwise by `factor`. -/
noncomputable def Camera.zoom (c : Camera) (factor : Vec2) : Camera :=
  { c with scale := ⟨c.scale.x * factor.x, c.scale.y * factor.y⟩ }

/-- `Camera::zoom_at_screen_coords` (src/camera.rs lines 180-192): convert the
screen pivot to world coordinates with the OLD scale, move `position` so the
pivot stays fixed, then multiply `scale` by `factor`. -/
noncomputable def Camera.zoom_at_screen_coords (c : Camera) (point : Point)
    (factor : Vec2) : Camera :=
  let world_center := c.screen_to_world_coords point
  { c with
    position := ⟨world_center.x - (world_center.x - c.position.x) / factor.x,
                 world_center.y - (world_center.y - c.position.y) / factor.y⟩,
    scale := ⟨c.scale.x * factor.x, c.scale.y * factor.y⟩ }

/-- `Camera::zoom_center` (src/camera.rs lines 165-178) as written in src/:
it reads `ctx.gfx.drawable_size()` from the engine context — modelled here as
the explicit argument `drawable_size` — and pivots on half that size, not on
the stored `screen_size` field. -/
noncomputable def Camera.zoom_center (c : Camera) (drawable_size : Vec2)
    (factor : Vec2) : Camera :=
  let screen_center : Point := ⟨drawable_size.x * 0.5, drawable_size.y * 0.5⟩
  let world_center := c.screen_to_world_coords screen_center
  { c with
    position := ⟨world_center.x - (world_center.x - c.position.x) / factor.x,
                 world_center.y - (world_center.y - c.position.y) / factor.y⟩,
    scale := ⟨c.scale.x * factor.x, c.scale.y * factor.y⟩ }

/-- Modelled from the spec: the canonical `zoom_center` (the repository's later
Camera version, which spec §9 says drops the engine-context parameter; that
version is not present under src/).  It computes
`world_center = screen_to_world_coords(screen_size / 2)` from the stored
`screen_size` field before the scale changes, then solves
`position = world_center - (world_center - position) / factor` per axis,
then applies `scale *= factor`. -/
noncomputable def Camera.zoom_center_spec (c : Camera) (factor : Vec2) : Camera :=
  let screen_center : Point := ⟨c.screen_size.x / 2, c.screen_size.y / 2⟩
  let world_center := c.screen_to_world_coords screen_center
  { c with
    position := ⟨world_center.x - (world_center.x - c.position.x) / factor.x,
                 world_center.y - (world_center.y - c.position.y) / factor.y⟩,
    scale := ⟨c.scale.x * factor.x, c.scale.y * factor.y⟩ }

/-- Explicit inverse of `affine_mat a b c d tx ty`, written with the generic
2x2 adjugate over the determinant `a*d - b*c`; used to identify the value of
`glam::Mat4::inverse` on the camera matrix. -/
def affine_inv_mat {α : Type} [Field α] (a b c d tx ty : α) :
    Matrix (Fin 4) (Fin 4) α :=
  affine_mat (d / (a * d - b * c)) (-b / (a * d - b * c))
    (-c / (a * d - b * c)) (a / (a * d - b * c))
    ((b * ty - d * tx) / (a * d - b * c)) ((c * tx - a * ty) / (a * d - b * c))

/-- `Camera::rotate`: additive rotation. -/
noncomputable def Camera.rotate (c : Camera) (angle : ℝ) : Camera :=
  { c with rotation := c.rotation + angle }

/-- `Camera::set_rotation`: absolute rotation. -/
def Camera.set_rotation (c : Camera) (angle : ℝ) : Camera :=
  { c with rotation := angle }

end Camera2d

namespace Camera2d

lemma transform_point3_affine (a b c d tx ty : ℝ) (v : Vec3) :
    transform_point3 (affine_mat a b c d tx ty) v =
      ⟨a * v.x + b * v.y + 0 * v.z + tx,
       c * v.x + d * v.y + 0 * v.z + ty,
       0 * v.x + 0 * v.y + 1 * v.z + 0⟩ := rfl

lemma camera_to_matrix_affine (c : Camera) :
    c.to_matrix =
      affine_mat (Real.cos c.rotation * c.scale.x)
        (-Real.sin c.rotation * c.scale.y)
        (Real.sin c.rotation * c.scale.x)
        (Real.cos c.rotation * c.scale.y)
        (c.position.x * -(Real.cos c.rotation * c.scale.x) -
          c.position.y * (-Real.sin c.rotation * c.scale.y) + c.offset.x)
        (c.position.y * -(Real.cos c.rotation * c.scale.y) -
          c.position.x * (Real.sin c.rotation * c.scale.x) + c.offset.y) := rfl

lemma transform_to_matrix_affine (t : Transform) :
    t.to_matrix =
      affine_mat (Real.cos t.rotation * t.scale.x)
        (-Real.sin t.rotation * t.scale.y)
        (Real.sin t.rotation * t.scale.x)
        (Real.cos t.rotation * t.scale.y)
        (t.offset.x / t.scale.x * -(Real.cos t.rotation * t.scale.x) -
          t.offset.y / t.scale.y * (-Real.sin t.rotation * t.scale.y) + t.dest.x)
        (t.offset.y / t.scale.y * -(Real.cos t.rotation * t.scale.y) -
          t.offset.x / t.scale.x * (Real.sin t.rotation * t.scale.x) + t.dest.y) := rfl

end Camera2d

namespace Camera2d

lemma affine_mul_inv (a b c d tx ty : ℝ) (h : a * d - b * c ≠ 0) :
    affine_mat a b c d tx ty * affine_inv_mat a b c d tx ty = 1 := by
  ext i j
  fin_cases i <;> fin_cases j <;>
    simp [affine_mat, affine_inv_mat, Matrix.mul_apply, Fin.sum_univ_four,
      Matrix.one_apply, Matrix.vecHead, Matrix.vecTail] <;>
    field_simp <;> ring

/-- The determinant of the camera's 2x2 block collapses to `scale.x * scale.y`
by the Pythagorean identity. -/
lemma camera_block_det (r sx sy : ℝ) :
    Real.cos r * sx * (Real.cos r * sy) - -Real.sin r * sy * (Real.sin r * sx) =
      sx * sy := by
  linear_combination sx * sy * Real.sin_sq_add_cos_sq r

lemma world_to_screen_affine (cam : Camera) (a b c d tx ty : ℝ)
    (h : cam.to_matrix = affine_mat a b c d tx ty) (p : Point) :
    cam.world_to_screen_coords p =
      ⟨a * p.x + b * p.y + tx, c * p.x + d * p.y + ty⟩ := by
  unfold Camera.world_to_screen_coords
  rw [h]
  simp only [transform_point3_affine]
  refine Point.ext ?_ ?_ <;> simp

lemma screen_to_world_affine (cam : Camera) (a b c d tx ty : ℝ)
    (h : cam.to_matrix = affine_mat a b c d tx ty)
    (hd : a * d - b * c ≠ 0) (p : Point) :
    cam.screen_to_world_coords p =
      ⟨d / (a * d - b * c) * p.x + -b / (a * d - b * c) * p.y +
         (b * ty - d * tx) / (a * d - b * c),
       -c / (a * d - b * c) * p.x + a / (a * d - b * c) * p.y +
         (c * tx - a * ty) / (a * d - b * c)⟩ := by
  unfold Camera.screen_to_world_coords
  rw [h, Matrix.inv_eq_right_inv (affine_mul_inv a b c d tx ty hd),
    affine_inv_mat]
  simp only [transform_point3_affine]
  refine Point.ext ?_ ?_ <;> simp

/-- Both compositions of the coordinate conversions are the identity whenever
the camera matrix has invertible linear block. -/
lemma round_trip_of_affine (cam : Camera) (a b c d tx ty : ℝ)
    (h : cam.to_matrix = affine_mat a b c d tx ty)
    (hd : a * d - b * c ≠ 0) (p : Point) :
    cam.screen_to_world_coords (cam.world_to_screen_coords p) = p ∧
    cam.world_to_screen_coords (cam.screen_to_world_coords p) = p := by
  rw [world_to_screen_affine cam a b c d tx ty h p,
    screen_to_world_affine cam a b c d tx ty h hd,
    screen_to_world_affine cam a b c d tx ty h hd p,
    world_to_screen_affine cam a b c d tx ty h]
  constructor <;> refine Point.ext ?_ ?_ <;> simp <;> field_simp <;> ring

end Camera2d

namespace Camera2d

lemma camera_det_ne_zero (cam : Camera) (h1 : cam.scale.x ≠ 0)
    (h2 : cam.scale.y ≠ 0) :
    Real.cos cam.rotation * cam.scale.x * (Real.cos cam.rotation * cam.scale.y) -
      -Real.sin cam.rotation * cam.scale.y *
        (Real.sin cam.rotation * cam.scale.x) ≠ 0 := by
  rw [camera_block_det]
  exact mul_ne_zero h1 h2

lemma zoom_at_screen_coords_scale (c : Camera) (p : Point) (f : Vec2) :
    (c.zoom_at_screen_coords p f).scale = ⟨c.scale.x * f.x, c.scale.y * f.y⟩ :=
  rfl

/-- In the ideal real-arithmetic model (the infinite-precision values the
source computes before its `as f32` casts), both round trips are exactly the
identity for every camera with nonzero scale, and remain so after
`zoom_at_screen_coords` with nonzero factor.  Helper for the amended claim
C1; the f32 narrowing makes the original claim fail, see
`round_trip_narrowing_counterexample`. -/
lemma real_round_trip_and_zoom_pivot (c : Camera) (p : Point) (factor : Vec2)
    (hsx : c.scale.x ≠ 0) (hsy : c.scale.y ≠ 0)
    (hfx : factor.x ≠ 0) (hfy : factor.y ≠ 0) (_hfid : factor ≠ ⟨1, 1⟩) :
    c.screen_to_world_coords (c.world_to_screen_coords p) = p ∧
    c.world_to_screen_coords (c.screen_to_world_coords p) = p ∧
    (c.zoom_at_screen_coords p factor).world_to_screen_coords
      ((c.zoom_at_screen_coords p factor).screen_to_world_coords p) = p := by
  obtain ⟨h1, h2⟩ := round_trip_of_affine c _ _ _ _ _ _ (camera_to_matrix_affine c)
    (camera_det_ne_zero c hsx hsy) p
  refine ⟨h1, h2, ?_⟩
  have hzx : (c.zoom_at_screen_coords p factor).scale.x ≠ 0 := by
    rw [zoom_at_screen_coords_scale]
    exact mul_ne_zero hsx hfx
  have hzy : (c.zoom_at_screen_coords p factor).scale.y ≠ 0 := by
    rw [zoom_at_screen_coords_scale]
    exact mul_ne_zero hsy hfy
  exact (round_trip_of_affine (c.zoom_at_screen_coords p factor) _ _ _ _ _ _
    (camera_to_matrix_affine _) (camera_det_ne_zero _ hzx hzy) p).2

/-- Concrete camera used by several witnesses: the spec's sample configuration. -/
def sample_camera : Camera :=
  ⟨⟨960, 540⟩, 0, ⟨1, 1⟩, ⟨0, 0⟩, ⟨1920, 1080⟩⟩

end Camera2d

namespace Camera2d

/-- Claim C2: on the spec's sample camera (offset (960,540), rotation 0,
scale (1,1), position (0,0), screen_size (1920,1080)),
`world_to_screen_coords` sends (0,0) to (960,540) and (100,0) to (1060,540). -/
theorem concrete_scenario_world_to_screen :
    sample_camera.world_to_screen_coords ⟨0, 0⟩ = ⟨960, 540⟩ ∧
    sample_camera.world_to_screen_coords ⟨100, 0⟩ = ⟨1060, 540⟩ := by
  simp only [world_to_screen_affine sample_camera _ _ _ _ _ _
    (camera_to_matrix_affine sample_camera)]
  constructor <;> refine Point.ext ?_ ?_ <;> norm_num [sample_camera]

end Camera2d

namespace Camera2d

/-- Claim C3: the canonical `zoom_center` (spec-modelled, see
`Camera.zoom_center_spec`) is exactly `zoom_at_screen_coords` at the stored
`screen_size / 2`: it computes the world center from the old scale, then moves
`position` to `world_center - (world_center - position) / factor` per axis,
then multiplies `scale` by `factor`. -/
theorem zoom_center_specializes_zoom_at (c : Camera) (factor : Vec2) :
    c.zoom_center_spec factor =
      c.zoom_at_screen_coords ⟨c.screen_size.x / 2, c.screen_size.y / 2⟩ factor ∧
    (c.zoom_center_spec factor).scale =
      ⟨c.scale.x * factor.x, c.scale.y * factor.y⟩ ∧
    (c.zoom_center_spec factor).position =
      ⟨(c.screen_to_world_coords ⟨c.screen_size.x / 2, c.screen_size.y / 2⟩).x -
         ((c.screen_to_world_coords ⟨c.screen_size.x / 2, c.screen_size.y / 2⟩).x -
           c.position.x) / factor.x,
       (c.screen_to_world_coords ⟨c.screen_size.x / 2, c.screen_size.y / 2⟩).y -
         ((c.screen_to_world_coords ⟨c.screen_size.x / 2, c.screen_size.y / 2⟩).y -
           c.position.y) / factor.y⟩ :=
  ⟨rfl, rfl, rfl⟩

/-- The src/ version of `zoom_center` is `zoom_at_screen_coords` pivoted at
half the engine's drawable size (not at the stored `screen_size`). -/
lemma zoom_center_eq_zoom_at_drawable (c : Camera) (ds factor : Vec2) :
    c.zoom_center ds factor =
      c.zoom_at_screen_coords ⟨ds.x * 0.5, ds.y * 0.5⟩ factor :=
  rfl

/-- When the drawable size agrees with the stored `screen_size`, the src/
`zoom_center` coincides with the spec-modelled canonical one. -/
lemma zoom_center_drawable_eq_spec (c : Camera) (factor : Vec2) :
    c.zoom_center c.screen_size factor = c.zoom_center_spec factor := by
  unfold Camera.zoom_center Camera.zoom_center_spec
  have hx : c.screen_size.x * 0.5 = c.screen_size.x / 2 := by ring
  have hy : c.screen_size.y * 0.5 = c.screen_size.y / 2 := by ring
  simp only [hx, hy]

/-- Claim C6: pan sign convention.  From position (0,0), scale (1,1),
rotation 0, `move_by_world_coords (1,0)` gives position (-1,0); from
position (0,0) with scale (2,1), `move_by_screen_coords (1,0)` gives
position (-0.5,0): the screen delta is divided componentwise by the scale
before the subtraction. -/
theorem pan_sign_convention (c c2 : Camera)
    (hp : c.position = ⟨0, 0⟩) (hs : c.scale = ⟨1, 1⟩) (_hr : c.rotation = 0)
    (hp2 : c2.position = ⟨0, 0⟩) (hs2 : c2.scale = ⟨2, 1⟩) :
    (c.move_by_world_coords ⟨1, 0⟩).position = ⟨-1, 0⟩ ∧
    (c2.move_by_screen_coords ⟨1, 0⟩).position = ⟨-0.5, 0⟩ := by
  constructor <;> refine Point.ext ?_ ?_ <;>
    norm_num [Camera.move_by_world_coords, Camera.move_by_screen_coords,
      hp, hs, hp2, hs2]

/-- Second concrete camera (scale (2,1)) for the C6 witness. -/
def pan_camera : Camera := ⟨⟨0, 0⟩, 0, ⟨2, 1⟩, ⟨0, 0⟩, ⟨1920, 1080⟩⟩

/-- Witness for C6 at `sample_camera` and `pan_camera`. -/
theorem pan_sign_convention_witness :
    sample_camera.position = ⟨0, 0⟩ ∧ sample_camera.scale = ⟨1, 1⟩ ∧
    sample_camera.rotation = 0 ∧ pan_camera.position = ⟨0, 0⟩ ∧
    pan_camera.scale = ⟨2, 1⟩ ∧
    ((sample_camera.move_by_world_coords ⟨1, 0⟩).position = ⟨-1, 0⟩ ∧
      (pan_camera.move_by_screen_coords ⟨1, 0⟩).position = ⟨-0.5, 0⟩) :=
  ⟨rfl, rfl, rfl, rfl, rfl,
    pan_sign_convention sample_camera pan_camera rfl rfl rfl rfl rfl⟩

/-- Claim C7: zoom composition.  `zoom (fx,fy)` then `zoom (gx,gy)` leaves the
same `scale` as the single call `zoom (fx*gx, fy*gy)`, and the two orders of
application commute. -/
theorem zoom_composition (c : Camera) (f g : Vec2) :
    ((c.zoom f).zoom g).scale = (c.zoom ⟨f.x * g.x, f.y * g.y⟩).scale ∧
    ((c.zoom f).zoom g).scale = ((c.zoom g).zoom f).scale := by
  constructor <;> refine Vec2.ext ?_ ?_ <;> simp [Camera.zoom] <;> ring

/-- Claim C8: `set_offset (10,10)` with scale (2,2) stores offset (20,20);
changing the scale to (4,4) via `set_zoom` leaves the stored offset at
(20,20). -/
theorem offset_scaling_asymmetry (c : Camera) (hs : c.scale = ⟨2, 2⟩) :
    (c.set_offset ⟨10, 10⟩).offset = ⟨20, 20⟩ ∧
    ((c.set_offset ⟨10, 10⟩).set_zoom ⟨4, 4⟩).offset = ⟨20, 20⟩ ∧
    ((c.set_offset ⟨10, 10⟩).set_zoom ⟨4, 4⟩).scale = ⟨4, 4⟩ := by
  refine ⟨?_, ?_, rfl⟩ <;> refine Point.ext ?_ ?_ <;>
    norm_num [Camera.set_offset, Camera.set_zoom, hs]

/-- Concrete camera with scale (2,2) for the C8 witness. -/
def offset_camera : Camera := ⟨⟨0, 0⟩, 0, ⟨2, 2⟩, ⟨0, 0⟩, ⟨1920, 1080⟩⟩

/-- Witness for C8 at `offset_camera`. -/
theorem offset_scaling_asymmetry_witness :
    offset_camera.scale = ⟨2, 2⟩ ∧
    ((offset_camera.set_offset ⟨10, 10⟩).offset = ⟨20, 20⟩ ∧
      ((offset_camera.set_offset ⟨10, 10⟩).set_zoom ⟨4, 4⟩).offset = ⟨20, 20⟩ ∧
      ((offset_camera.set_offset ⟨10, 10⟩).set_zoom ⟨4, 4⟩).scale = ⟨4, 4⟩) :=
  ⟨rfl, offset_scaling_asymmetry offset_camera rfl⟩

end Camera2d

namespace Camera2d

/-- The standard counter-clockwise 2D rotation matrix `R(rotation)`. -/
noncomputable def rotation_block (r : ℝ) : Matrix (Fin 2) (Fin 2) ℝ :=
  Matrix.of ![![Real.cos r, -Real.sin r], ![Real.sin r, Real.cos r]]

/-- The diagonal scale matrix `diag(scale)`. -/
def scale_block (s : Vec2) : Matrix (Fin 2) (Fin 2) ℝ :=
  Matrix.of ![![s.x, 0], ![0, s.y]]

lemma rotation_mul_scale (r : ℝ) (s : Vec2) :
    (rotation_block r * scale_block s) 0 0 = Real.cos r * s.x ∧
    (rotation_block r * scale_block s) 0 1 = -Real.sin r * s.y ∧
    (rotation_block r * scale_block s) 1 0 = Real.sin r * s.x ∧
    (rotation_block r * scale_block s) 1 1 = Real.cos r * s.y := by
  refine ⟨?_, ?_, ?_, ?_⟩ <;>
    simp [rotation_block, scale_block, Matrix.mul_apply, Fin.sum_univ_two,
      Matrix.vecHead, Matrix.vecTail]

/-- Claim C9: the translation entries of `Transform::to_matrix`, computed as
`tx = local_offset.x*(-m00) - local_offset.y*m01 + dest.x` and
`ty = local_offset.y*(-m11) - local_offset.x*m10 + dest.y` with
`local_offset = offset / scale`, are exactly the components of
`dest - M * local_offset` where `M = R(rotation) * diag(scale)`. -/
theorem transform_translation_eq_dest_sub_block (t : Transform) :
    t.to_matrix 0 3 =
      t.dest.x -
        ((rotation_block t.rotation * scale_block t.scale) 0 0 *
            (t.offset.x / t.scale.x) +
          (rotation_block t.rotation * scale_block t.scale) 0 1 *
            (t.offset.y / t.scale.y)) ∧
    t.to_matrix 1 3 =
      t.dest.y -
        ((rotation_block t.rotation * scale_block t.scale) 1 0 *
            (t.offset.x / t.scale.x) +
          (rotation_block t.rotation * scale_block t.scale) 1 1 *
            (t.offset.y / t.scale.y)) := by
  obtain ⟨e00, e01, e10, e11⟩ := rotation_mul_scale t.rotation t.scale
  rw [transform_to_matrix_affine, e00, e01, e10, e11]
  constructor <;>
    simp [affine_mat, Matrix.cons_val_three, Matrix.vecHead, Matrix.vecTail] <;>
    ring

/-- Entry layout of `affine_mat`: linear block top-left, translation in the
rightmost column of the top two rows, third row and column identity, bottom
row `[0,0,0,1]`. -/
lemma affine_mat_layout (a b c d tx ty : ℝ) :
    (affine_mat a b c d tx ty 0 0 = a ∧ affine_mat a b c d tx ty 0 1 = b ∧
     affine_mat a b c d tx ty 1 0 = c ∧ affine_mat a b c d tx ty 1 1 = d ∧
     affine_mat a b c d tx ty 0 3 = tx ∧ affine_mat a b c d tx ty 1 3 = ty ∧
     affine_mat a b c d tx ty 0 2 = 0 ∧ affine_mat a b c d tx ty 1 2 = 0) ∧
    (∀ j, affine_mat a b c d tx ty 2 j = if j = 2 then 1 else 0) ∧
    (∀ i, affine_mat a b c d tx ty i 2 = if i = 2 then 1 else 0) ∧
    (∀ j, affine_mat a b c d tx ty 3 j = if j = 3 then 1 else 0) := by
  refine ⟨⟨rfl, rfl, rfl, rfl, rfl, rfl, rfl, rfl⟩, ?_, ?_, ?_⟩ <;>
    intro k <;> fin_cases k <;>
    simp [affine_mat, Matrix.vecHead, Matrix.vecTail]

end Camera2d

namespace Camera2d

/-- The image of the origin under an `affine_mat` is exactly the rightmost
column of its top two rows: that column is the translation. -/
lemma affine_origin_translation (a b c d tx ty : ℝ) :
    transform_point3 (affine_mat a b c d tx ty) ⟨0, 0, 0⟩ =
      ⟨affine_mat a b c d tx ty 0 3, affine_mat a b c d tx ty 1 3, 0⟩ := by
  rw [transform_point3_affine]
  refine Vec3.ext ?_ ?_ ?_ <;> simp [affine_mat, Matrix.vecHead, Matrix.vecTail]

/-- Claim C4: for every Transform and every Camera, `to_matrix` is a pure 2D
affine embedding: the 2x2 block `R(rotation) * diag(scale)` sits top-left, the
translation (the image of the origin) is in the rightmost column of the top
two rows, the third row and third column are identity, and the bottom row is
`[0,0,0,1]`. -/
theorem pure_2d_affine_embedding (t : Transform) (c : Camera) :
    (t.to_matrix 0 0 = (rotation_block t.rotation * scale_block t.scale) 0 0 ∧
     t.to_matrix 0 1 = (rotation_block t.rotation * scale_block t.scale) 0 1 ∧
     t.to_matrix 1 0 = (rotation_block t.rotation * scale_block t.scale) 1 0 ∧
     t.to_matrix 1 1 = (rotation_block t.rotation * scale_block t.scale) 1 1 ∧
     transform_point3 t.to_matrix ⟨0, 0, 0⟩ =
       ⟨t.to_matrix 0 3, t.to_matrix 1 3, 0⟩ ∧
     t.to_matrix 0 2 = 0 ∧ t.to_matrix 1 2 = 0 ∧
     (∀ j, t.to_matrix 2 j = if j = 2 then 1 else 0) ∧
     (∀ i, t.to_matrix i 2 = if i = 2 then 1 else 0) ∧
     (∀ j, t.to_matrix 3 j = if j = 3 then 1 else 0) ∧
     t.to_matrix 3 3 = 1) ∧
    (c.to_matrix 0 0 = (rotation_block c.rotation * scale_block c.scale) 0 0 ∧
     c.to_matrix 0 1 = (rotation_block c.rotation * scale_block c.scale) 0 1 ∧
     c.to_matrix 1 0 = (rotation_block c.rotation * scale_block c.scale) 1 0 ∧
     c.to_matrix 1 1 = (rotation_block c.rotation * scale_block c.scale) 1 1 ∧
     transform_point3 c.to_matrix ⟨0, 0, 0⟩ =
       ⟨c.to_matrix 0 3, c.to_matrix 1 3, 0⟩ ∧
     c.to_matrix 0 2 = 0 ∧ c.to_matrix 1 2 = 0 ∧
     (∀ j, c.to_matrix 2 j = if j = 2 then 1 else 0) ∧
     (∀ i, c.to_matrix i 2 = if i = 2 then 1 else 0) ∧
     (∀ j, c.to_matrix 3 j = if j = 3 then 1 else 0) ∧
     c.to_matrix 3 3 = 1) := by
  obtain ⟨et00, et01, et10, et11⟩ := rotation_mul_scale t.rotation t.scale
  obtain ⟨ec00, ec01, ec10, ec11⟩ := rotation_mul_scale c.rotation c.scale
  rw [transform_to_matrix_affine, camera_to_matrix_affine, et00, et01, et10, et11,
    ec00, ec01, ec10, ec11]
  refine ⟨⟨rfl, rfl, rfl, rfl, affine_origin_translation _ _ _ _ _ _,
      rfl, rfl, ?_, ?_, ?_, rfl⟩,
    ⟨rfl, rfl, rfl, rfl, affine_origin_translation _ _ _ _ _ _,
      rfl, rfl, ?_, ?_, ?_, rfl⟩⟩ <;>
    intro k <;> fin_cases k <;> simp [affine_mat, Matrix.vecHead, Matrix.vecTail]

/-- `ggez::graphics::Transform`, the external enum consumed by the
`From<graphics::Transform> for Transform` impl: either decomposed `Values`
(with an `f32` rotation, widened exactly on conversion) or a raw `Matrix`. -/
inductive GgezTransform where
  | values (dest : Point) (rotation : ℝ) (scale : Vec2) (offset : Point)
  | matrix (m : Mat4)

/-- `impl From<graphics::Transform> for Transform` (src/transform.rs lines
58-77).  The `Values` arm copies the four fields; the `Matrix` arm panics,
modelled as `none`. -/
def Transform.from_ggez : GgezTransform → Option Transform
  | .values dest rotation scale offset => some ⟨dest, rotation, scale, offset⟩
  | .matrix _ => none

/-- Claim C10: converting a ggez `graphics::Transform` succeeds on the
`Values` variant, copying `dest`, `rotation` (widened to f64), `scale` and
`offset` field for field, and fails (panics) exactly on the `Matrix`
variant. -/
theorem from_ggez_values_matrix (d : Point) (r : ℝ) (s : Vec2) (o : Point)
    (m : Mat4) :
    Transform.from_ggez (.values d r s o) = some ⟨d, r, s, o⟩ ∧
    Transform.from_ggez (.matrix m) = none ∧
    (∀ g : GgezTransform,
      Transform.from_ggez g = none ↔ ∃ mm, g = .matrix mm) := by
  refine ⟨rfl, rfl, ?_⟩
  intro g
  cases g with
  | values d2 r2 s2 o2 => simp [Transform.from_ggez]
  | matrix mm => simp [Transform.from_ggez]

end Camera2d

namespace Camera2d

/-- Round a rational to the nearest integer, ties to even: the IEEE-754
default rounding used by the Rust `as f32` cast. -/
def rnte (x : ℚ) : ℤ :=
  let f := ⌊x⌋
  let r := x - f
  if r < 1 / 2 then f
  else if 1 / 2 < r then f + 1
  else if f % 2 = 0 then f else f + 1

/-- Fuel-bounded base-2 exponent of a rational: for `x` in `[2^e, 2^(e+1))`
reachable within `fuel` halvings/doublings it returns `e`. -/
def qlog2 : ℕ → ℚ → ℤ
  | 0, _ => 0
  | fuel + 1, x =>
    if 2 ≤ x then qlog2 fuel (x / 2) + 1
    else if x < 1 then qlog2 fuel (2 * x) - 1
    else 0

/-- Models the Rust `f64 as f32` narrowing of an exactly-representable finite
double: round to the nearest IEEE-754 binary32 value (24-bit significand,
subnormal quantum 2^(-149) below 2^(-126), ties to even).  Overflow to
infinity (|x| at or above 2^128) is outside the range used here. -/
def toF32 (x : ℚ) : ℚ :=
  if x = 0 then 0
  else
    let k := max (qlog2 4000 |x| - 23) (-149)
    rnte (x / 2 ^ k) * 2 ^ k

/-- One f32 multiplication: the exact product, rounded (IEEE-754 correct
rounding). -/
def f32_mul (a b : ℚ) : ℚ := toF32 (a * b)

/-- One f32 addition: the exact sum, rounded. -/
def f32_add (a b : ℚ) : ℚ := toF32 (a + b)

/-- The f32-precise path of `world_to_screen_coords` for a camera whose f64
matrix entries are exactly-representable rationals: the matrix entries are
narrowed (`m00 as f32`, ...), the input point is narrowed
(`point.x as f32`), and `transform_point3` runs in f32 with every product and
sum rounded.  The final `as f64` widening is exact, so the result is the
returned pair. -/
def world_to_screen_coords_f32 (m : Matrix (Fin 4) (Fin 4) ℚ) (x y : ℚ) :
    ℚ × ℚ :=
  let mf := m.map toF32
  let px := toF32 x
  let py := toF32 y
  (f32_add (f32_add (f32_add (f32_mul (mf 0 0) px) (f32_mul (mf 0 1) py))
      (f32_mul (mf 0 2) 0)) (mf 0 3),
   f32_add (f32_add (f32_add (f32_mul (mf 1 0) px) (f32_mul (mf 1 1) py))
      (f32_mul (mf 1 2) 0)) (mf 1 3))

/-- The f32-precise path of `screen_to_world_coords`, given the f32 inverse
matrix: the source computes `to_matrix().inverse()` with `glam`'s f32
`Mat4::inverse`; on the matrices used in this file (the exactly-represented
identity) every cofactor product and sum of that algorithm is exact in f32,
so the inverse matrix is supplied directly and tied to the mathematical
inverse by a conjunct of `round_trip_narrowing_counterexample`.  The input
point is narrowed (`point.x as f32`) and `transform_point3` runs in f32 with
every product and sum rounded. -/
def screen_to_world_coords_f32 (minv : Matrix (Fin 4) (Fin 4) ℚ) (x y : ℚ) :
    ℚ × ℚ :=
  let mf := minv.map toF32
  let px := toF32 x
  let py := toF32 y
  (f32_add (f32_add (f32_add (f32_mul (mf 0 0) px) (f32_mul (mf 0 1) py))
      (f32_mul (mf 0 2) 0)) (mf 0 3),
   f32_add (f32_add (f32_add (f32_mul (mf 1 0) px) (f32_mul (mf 1 1) py))
      (f32_mul (mf 1 2) 0)) (mf 1 3))

/-- The camera of claim C5: rotation 0, scale (1,1), offset (0,0),
position (0,0). -/
def identity_camera : Camera := ⟨⟨0, 0⟩, 0, ⟨1, 1⟩, ⟨0, 0⟩, ⟨1920, 1080⟩⟩

lemma qlog2_succ (fuel : ℕ) (x : ℚ) :
    qlog2 (fuel + 1) x =
      if 2 ≤ x then qlog2 fuel (x / 2) + 1
      else if x < 1 then qlog2 fuel (2 * x) - 1
      else 0 := rfl

lemma rnte_eval (x : ℚ) (f : ℤ) (hf : ⌊x⌋ = f) (h : x - f < 1 / 2) :
    rnte x = f := by
  unfold rnte
  rw [hf, if_pos h]

lemma toF32_zero : toF32 0 = 0 := by simp [toF32]

lemma toF32_one : toF32 1 = 1 := by
  unfold toF32
  rw [if_neg (by norm_num)]
  have habs : |(1 : ℚ)| = 1 := by norm_num
  rw [habs, show (4000 : ℕ) = 3999 + 1 from rfl, qlog2_succ,
    if_neg (by norm_num), if_neg (by norm_num)]
  norm_num
  rw [rnte_eval _ 8388608 (by norm_num [Int.floor_eq_iff]) (by norm_num)]
  norm_num

lemma toF32_three : toF32 3 = 3 := by
  unfold toF32
  rw [if_neg (by norm_num)]
  have habs : |(3 : ℚ)| = 3 := by norm_num
  rw [habs, show (4000 : ℕ) = 3999 + 1 from rfl, qlog2_succ,
    if_pos (by norm_num), show (3999 : ℕ) = 3998 + 1 from rfl, qlog2_succ,
    if_neg (by norm_num), if_neg (by norm_num)]
  norm_num
  rw [rnte_eval _ 12582912 (by norm_num [Int.floor_eq_iff]) (by norm_num)]
  norm_num

/-- `1 + 2^(-30)` is exactly representable as an f64 but rounds to `1` under
the f32 narrowing: its distance to 1 is below half the f32 quantum `2^(-23)`
at this magnitude. -/
lemma toF32_one_plus_eps : toF32 (1073741825 / 1073741824) = 1 := by
  unfold toF32
  rw [if_neg (by norm_num)]
  have habs : |(1073741825 / 1073741824 : ℚ)| = 1073741825 / 1073741824 := by
    norm_num
  rw [habs, show (4000 : ℕ) = 3999 + 1 from rfl, qlog2_succ,
    if_neg (by norm_num), if_neg (by norm_num)]
  norm_num
  rw [rnte_eval _ 8388608 (by norm_num [Int.floor_eq_iff]) (by norm_num)]
  norm_num

lemma identity_camera_matrix : identity_camera.to_matrix = affine_mat 1 0 0 1 0 0 := by
  rw [camera_to_matrix_affine]
  norm_num [identity_camera]

lemma rnte_eval_tie (x : ℚ) (f : ℤ) (hf : ⌊x⌋ = f) (h : x - f = 1 / 2)
    (he : f % 2 = 0) : rnte x = f := by
  unfold rnte
  rw [hf]
  simp only [h]
  rw [if_neg (by norm_num), if_neg (by norm_num), if_pos he]

/-- `1 + 2^(-24)` is exactly representable as an f64, sits exactly halfway
between the consecutive f32 values `1` and `1 + 2^(-23)`, and the
ties-to-even rule rounds it down to `1`. -/
lemma toF32_tie_to_even : toF32 (16777217 / 16777216) = 1 := by
  unfold toF32
  rw [if_neg (by norm_num)]
  have habs : |(16777217 / 16777216 : ℚ)| = 16777217 / 16777216 := by norm_num
  rw [habs, show (4000 : ℕ) = 3999 + 1 from rfl, qlog2_succ,
    if_neg (by norm_num), if_neg (by norm_num)]
  norm_num
  rw [rnte_eval_tie _ 8388608 (by norm_num [Int.floor_eq_iff]) (by norm_num)
    (by norm_num)]
  norm_num

lemma affine_mat_id : affine_mat (1 : ℝ) 0 0 1 0 0 = 1 := by
  ext i j
  fin_cases i <;> fin_cases j <;>
    simp [affine_mat, Matrix.one_apply, Matrix.vecHead, Matrix.vecTail]

/-- With the exactly-represented identity matrix, the f32 forward transform
fixes every point whose coordinates are f32-representable. -/
lemma w2s_f32_identity (x y : ℚ) (hx : toF32 x = x) (hy : toF32 y = y) :
    world_to_screen_coords_f32 (affine_mat 1 0 0 1 0 0) x y = (x, y) := by
  simp [world_to_screen_coords_f32, f32_mul, f32_add, Matrix.map_apply,
    affine_mat, Matrix.vecHead, Matrix.vecTail, toF32_zero, toF32_one, hx, hy]

/-- With the exactly-represented identity inverse matrix, the f32 inverse
transform fixes every point whose coordinates are f32-representable. -/
lemma s2w_f32_identity (x y : ℚ) (hx : toF32 x = x) (hy : toF32 y = y) :
    screen_to_world_coords_f32 (affine_mat 1 0 0 1 0 0) x y = (x, y) := by
  simp [screen_to_world_coords_f32, f32_mul, f32_add, Matrix.map_apply,
    affine_mat, Matrix.vecHead, Matrix.vecTail, toF32_zero, toF32_one, hx, hy]

end Camera2d

namespace Camera2d

/-- Claim C5 counterexample: on the identity camera the f32-narrowed
`world_to_screen_coords` path maps the finite f64 point
`(1 + 2^(-30), 0) = (1073741825/1073741824, 0)` to `(1, 0)`, which differs
from the input — so `world_to_screen_coords p = p` does NOT hold exactly for
all finite f64 inputs. -/
theorem identity_narrowing_counterexample :
    identity_camera.to_matrix = affine_mat 1 0 0 1 0 0 ∧
    world_to_screen_coords_f32 (affine_mat 1 0 0 1 0 0)
      (1073741825 / 1073741824) 0 = (1, 0) ∧
    ((1073741825 / 1073741824 : ℚ), (0 : ℚ)) ≠ ((1 : ℚ), (0 : ℚ)) := by
  refine ⟨identity_camera_matrix, ?_, by norm_num [Prod.ext_iff]⟩
  simp [world_to_screen_coords_f32, f32_mul, f32_add, Matrix.map_apply,
    affine_mat, Matrix.vecHead, Matrix.vecTail, toF32_zero, toF32_one,
    toF32_one_plus_eps]

/-- Claim C5 (amended): on the identity camera (rotation 0, scale (1,1),
offset (0,0), position (0,0)), `world_to_screen_coords p = p` holds exactly
for every point `p` whose coordinates are exactly representable in f32 (the
narrowing fixes them); in ideal real arithmetic the identity holds for every
point. -/
theorem identity_world_to_screen (x y : ℚ) (hx : toF32 x = x)
    (hy : toF32 y = y) :
    world_to_screen_coords_f32 (affine_mat 1 0 0 1 0 0) x y = (x, y) ∧
    ∀ p : Point, identity_camera.world_to_screen_coords p = p := by
  refine ⟨w2s_f32_identity x y hx hy, ?_⟩
  · intro p
    rw [world_to_screen_affine identity_camera _ _ _ _ _ _
      (camera_to_matrix_affine identity_camera)]
    refine Point.ext ?_ ?_ <;> norm_num [identity_camera]

/-- Witness for the amended C5 at the f32-representable point `(3, 0)`. -/
theorem identity_world_to_screen_witness :
    toF32 3 = 3 ∧ toF32 0 = 0 ∧
    (world_to_screen_coords_f32 (affine_mat 1 0 0 1 0 0) 3 0 = (3, 0) ∧
      ∀ p : Point, identity_camera.world_to_screen_coords p = p) :=
  ⟨toF32_three, toF32_zero, identity_world_to_screen 3 0 toF32_three toF32_zero⟩

end Camera2d

namespace Camera2d

/-- Claim C1 counterexample: on the identity camera (whose scale (1,1) is
nonzero) the f32-narrowed conversion path fails the claimed 1e-9 relative
tolerance at the finite f64 point `(1 + 2^(-24), 0) = (16777217/16777216, 0)`:
the camera matrix and its glam inverse are both exactly the identity, yet
`world_to_screen_coords` already narrows the point to `(1, 0)`, so the round
trip returns `(1, 0)`, a relative error of `1/16777217` (about 6e-8), sixty
times the claimed tolerance. -/
theorem round_trip_narrowing_counterexample :
    identity_camera.to_matrix = affine_mat 1 0 0 1 0 0 ∧
    (affine_mat (1 : ℝ) 0 0 1 0 0)⁻¹ = affine_mat 1 0 0 1 0 0 ∧
    world_to_screen_coords_f32 (affine_mat 1 0 0 1 0 0)
      (16777217 / 16777216) 0 = (1, 0) ∧
    screen_to_world_coords_f32 (affine_mat 1 0 0 1 0 0) 1 0 = (1, 0) ∧
    |(1 : ℚ) - 16777217 / 16777216| / |(16777217 / 16777216 : ℚ)| >
      1 / 1000000000 := by
  refine ⟨identity_camera_matrix, by rw [affine_mat_id, inv_one], ?_,
    s2w_f32_identity 1 0 toF32_one toF32_zero, ?_⟩
  · simp [world_to_screen_coords_f32, f32_mul, f32_add, Matrix.map_apply,
      affine_mat, Matrix.vecHead, Matrix.vecTail, toF32_zero, toF32_one,
      toF32_tie_to_even]
  · have h1 : |(1 : ℚ) - 16777217 / 16777216| = 1 / 16777216 := by
      rw [abs_sub_comm,
        abs_of_pos (by norm_num : (0 : ℚ) < 16777217 / 16777216 - 1)]
      norm_num
    have h2 : |(16777217 / 16777216 : ℚ)| = 16777217 / 16777216 :=
      abs_of_pos (by norm_num)
    rw [h1, h2]
    norm_num

/-- Claim C1 (amended): under the implementation's f32 narrowing the round
trip is exact for points whose coordinates are exactly representable in f32
(shown on the identity camera, where matrix, inverse and all f32 arithmetic
are exact); in ideal real arithmetic — the infinite-precision values of the
same formulas — both round trips are exactly the identity for every camera
with nonzero scale, and remain so after `zoom_at_screen_coords` with factor
nonzero and not the identity. -/
theorem inverse_round_trip_amended (x y : ℚ) (hx : toF32 x = x)
    (hy : toF32 y = y) (c : Camera) (p : Point) (factor : Vec2)
    (hsx : c.scale.x ≠ 0) (hsy : c.scale.y ≠ 0)
    (hfx : factor.x ≠ 0) (hfy : factor.y ≠ 0) (hfid : factor ≠ ⟨1, 1⟩) :
    screen_to_world_coords_f32 (affine_mat 1 0 0 1 0 0)
        (world_to_screen_coords_f32 (affine_mat 1 0 0 1 0 0) x y).1
        (world_to_screen_coords_f32 (affine_mat 1 0 0 1 0 0) x y).2 = (x, y) ∧
    (c.screen_to_world_coords (c.world_to_screen_coords p) = p ∧
      c.world_to_screen_coords (c.screen_to_world_coords p) = p ∧
      (c.zoom_at_screen_coords p factor).world_to_screen_coords
        ((c.zoom_at_screen_coords p factor).screen_to_world_coords p) = p) := by
  refine ⟨?_, real_round_trip_and_zoom_pivot c p factor hsx hsy hfx hfy hfid⟩
  rw [w2s_f32_identity x y hx hy]
  exact s2w_f32_identity x y hx hy

/-- Witness for the amended C1: the f32 part at the representable point
`(1, 0)`, the real part at the sample camera with `p = (7, 11)` and
`factor = (2, 3)`. -/
theorem inverse_round_trip_amended_witness :
    toF32 1 = 1 ∧ toF32 0 = 0 ∧
    sample_camera.scale.x ≠ 0 ∧ sample_camera.scale.y ≠ 0 ∧
    ((⟨2, 3⟩ : Vec2).x ≠ 0) ∧ ((⟨2, 3⟩ : Vec2).y ≠ 0) ∧
    ((⟨2, 3⟩ : Vec2) ≠ ⟨1, 1⟩) ∧
    (screen_to_world_coords_f32 (affine_mat 1 0 0 1 0 0)
        (world_to_screen_coords_f32 (affine_mat 1 0 0 1 0 0) 1 0).1
        (world_to_screen_coords_f32 (affine_mat 1 0 0 1 0 0) 1 0).2 = (1, 0) ∧
      (sample_camera.screen_to_world_coords
          (sample_camera.world_to_screen_coords ⟨7, 11⟩) = ⟨7, 11⟩ ∧
        sample_camera.world_to_screen_coords
          (sample_camera.screen_to_world_coords ⟨7, 11⟩) = ⟨7, 11⟩ ∧
        (sample_camera.zoom_at_screen_coords ⟨7, 11⟩ ⟨2, 3⟩).world_to_screen_coords
          ((sample_camera.zoom_at_screen_coords ⟨7, 11⟩
            ⟨2, 3⟩).screen_to_world_coords ⟨7, 11⟩) = ⟨7, 11⟩)) := by
  have h1 : sample_camera.scale.x ≠ 0 := by norm_num [sample_camera]
  have h2 : sample_camera.scale.y ≠ 0 := by norm_num [sample_camera]
  have h3 : ((⟨2, 3⟩ : Vec2)).x ≠ 0 := by norm_num
  have h4 : ((⟨2, 3⟩ : Vec2)).y ≠ 0 := by norm_num
  have h5 : (⟨2, 3⟩ : Vec2) ≠ ⟨1, 1⟩ := by
    simp only [ne_eq, Vec2.mk.injEq]
    norm_num
  exact ⟨toF32_one, toF32_zero, h1, h2, h3, h4, h5,
    inverse_round_trip_amended 1 0 toF32_one toF32_zero sample_camera
      ⟨7, 11⟩ ⟨2, 3⟩ h1 h2 h3 h4 h5⟩

end Camera2d
